import Mathlib

/-!
Verification of the pathops library: a shallow embedding of the
path-manipulation core (ensure_contents, remove_path, the Pebble error
taxonomy mappers, and the pure path-name transforms), with theorems about
the behaviour that the design documentation ascribes to it.

Bytes are modelled as lists of natural numbers, filesystems as finite
association lists from absolute paths (component lists) to nodes, and
Pebble protocol errors as a small inductive mirroring ops.pebble.PathError
and ops.pebble.APIError.
-/

set_option autoImplicit false
set_option linter.unusedVariables false

namespace PathOps

/-- Bytes are modelled as lists of natural numbers, one per byte. -/
abbrev Bytes := List Nat

/-- The UTF-8 encoding of a string, as produced by Python's str.encode(). -/
def utf8Encode (s : String) : Bytes := s.toUTF8.toList.map (fun b => b.toNat)

/-- Source models the source argument of ensure_contents: a bytes object,
a str, or an object with a read() method returning either (readers can in
principle nest, and the code recurses accordingly). -/
inductive Source where
| bytes (b : Bytes)
| str (s : String)
| reader (r : Source)
deriving Repr

/-- as_bytes models _as_bytes from charmlibs/pathops/_functions.py:
bytes pass through unchanged, str is UTF-8 encoded, and anything else has
its read() result converted recursively. -/
def as_bytes : Source → Bytes
| .bytes b => b
| .str s => utf8Encode s
| .reader r => as_bytes r

/-- PebbleError models the structured errors of the remote protocol client:
ops.pebble.PathError carries a kind string and a message, and
ops.pebble.APIError carries an HTTP status code and a message. -/
inductive PebbleError where
| pathError (kind : String) (message : String)
| apiError (code : Nat) (message : String)
deriving DecidableEq, Repr

/-- Whether the error is a pebble.PathError (the only class caught by the
except clause of _remove_container_path). -/
def PebbleError.isPathError : PebbleError → Bool
| .pathError _ _ => true
| _ => false

/-- Decides whether needle occurs as a contiguous substring of hay,
modelling the Python expression needle in hay. -/
def substrB (needle : List Char) : List Char → Bool
| [] => needle.isEmpty
| c :: cs => needle.isPrefixOf (c :: cs) || substrB needle cs

/-- String-level substring test, modelling Python's in operator on str. -/
def containsSub (needle hay : String) : Bool := substrB needle.data hay.data

/-- The condition of raise_if_matches_file_exists in _errors.py:
a PathError of kind generic-file-error whose message contains
the substring file exists. -/
def matches_file_exists : PebbleError → Bool
| .pathError kind msg => kind == ("generic-file-error") && containsSub ("file exists") msg
| _ => false

/-- The condition of raise_if_matches_is_a_directory in _errors.py:
a PathError of kind generic-file-error whose message contains
the substring can only read a regular file. -/
def matches_is_a_directory : PebbleError → Bool
| .pathError kind msg => kind == ("generic-file-error") && containsSub ("can only read a regular file") msg
| _ => false

/-- The condition of raise_if_matches_lookup in _errors.py:
a PathError of kind generic-file-error whose message contains
the substring cannot look up user and group. -/
def matches_lookup_failed : PebbleError → Bool
| .pathError kind msg => kind == ("generic-file-error") && containsSub ("cannot look up user and group") msg
| _ => false

/-- matches_not_a_directory from _errors.py: a PathError of kind
generic-file-error whose message contains the substring not a directory. -/
def matches_not_a_directory : PebbleError → Bool
| .pathError kind msg => kind == ("generic-file-error") && containsSub ("not a directory") msg
| _ => false

/-- The condition of raise_if_matches_file_not_found in _errors.py:
an APIError with code 404, or a PathError of kind not-found. -/
def matches_file_not_found : PebbleError → Bool
| .pathError kind _ => kind == ("not-found")
| .apiError code _ => code == 404

/-- Permission.matches from _errors.py: a PathError of kind permission-denied. -/
def matches_permission : PebbleError → Bool
| .pathError kind _ => kind == ("permission-denied")
| _ => false

/-- Modelled from the spec: raise_if_matches_directory_not_empty is called by
_remove_container_path but its definition is not among the provided error
helpers. The design documentation states that directory non-emptiness is
derived from the remove call's reported error category, and that for the
generic-file-error category sub-cases are distinguished by English-language
message substrings; the matcher therefore tests for a PathError of kind
generic-file-error whose message contains the substring directory not empty. -/
def matches_directory_not_empty : PebbleError → Bool
| .pathError kind msg => kind == ("generic-file-error") && containsSub ("directory not empty") msg
| _ => false

/-- The shared semantic error kinds of the error taxonomy. -/
inductive OSErrorKind where
| fileExists
| fileNotFound
| isADirectory
| lookupFailed
| notADirectory
| directoryNotEmpty
| permissionDenied
deriving DecidableEq, Repr

/-- raise_if_matches_file_exists as a total function: the raised kind, or
none when the error does not match. -/
def raise_if_matches_file_exists (e : PebbleError) : Option OSErrorKind :=
  if matches_file_exists e then some .fileExists else none

/-- raise_if_matches_is_a_directory as a total function. -/
def raise_if_matches_is_a_directory (e : PebbleError) : Option OSErrorKind :=
  if matches_is_a_directory e then some .isADirectory else none

/-- raise_if_matches_lookup as a total function. -/
def raise_if_matches_lookup (e : PebbleError) : Option OSErrorKind :=
  if matches_lookup_failed e then some .lookupFailed else none

/-- The observable outcome of the remote remove adapter: success, a
translated error of one of the shared kinds carrying the original protocol
error as context, or a raw untranslated protocol error reaching the caller. -/
inductive RemoveResult where
| ok
| osError (kind : OSErrorKind) (orig : Option PebbleError)
| raw (e : PebbleError)
deriving DecidableEq, Repr

/-- Whether the outcome is a translated (taxonomy) error or a success, as
opposed to a raw protocol error escaping to the caller. -/
def RemoveResult.isTranslated : RemoveResult → Bool
| .raw _ => false
| _ => true

/-- remove_container_path models _remove_container_path from
charmlibs/pathops/_functions.py as a function of the protocol call's result
(none for success, some e for a structured error). Only pebble.PathError is
caught; a caught error is tried against the directory-not-empty, not-found
and permission matchers in that order and re-raised raw when none matches.
The recursive flag is passed through to the protocol call and is otherwise
unused by the adapter. -/
def remove_container_path (result : Option PebbleError) (recursive : Bool) : RemoveResult :=
  match result with
  | none => .ok
  | some e =>
    if e.isPathError then
      if matches_directory_not_empty e then .osError .directoryNotEmpty (some e)
      else if matches_file_not_found e then .osError .fileNotFound (some e)
      else if matches_permission e then .osError .permissionDenied (some e)
      else .raw e
    else .raw e

/-- Absolute paths are modelled as their list of components below the root. -/
abbrev Path := List String

/-- A filesystem node: a regular file with content, permission bits, owner
and group, or a directory with permission bits, owner and group. -/
inductive Node where
| file (content : Bytes) (mode : Nat) (user : String) (group : String)
| dir (mode : Nat) (user : String) (group : String)
deriving DecidableEq, Repr

/-- A filesystem is a finite association list from paths to nodes.
The root directory is implicit and always present. -/
abbrev FS := List (Path × Node)

/-- First-match association lookup. -/
def lookup : FS → Path → Option Node
| [], _ => none
| (q, n) :: rest, p => if q = p then some n else lookup rest p

/-- Removes every binding of one key. -/
def eraseKey : FS → Path → FS
| [], _ => []
| (q, n) :: rest, p => if q = p then eraseKey rest p else (q, n) :: eraseKey rest p

/-- Removes the bindings of a path and of everything below it. -/
def eraseTree (fs : FS) (p : Path) : FS := fs.filter (fun e => decide (¬ p <+: e.1))

/-- Binds a path to a node, replacing any previous binding. -/
def setNode (fs : FS) (p : Path) (n : Node) : FS := (p, n) :: eraseKey fs p

/-- Whether the path has a binding, modelling pathlib.Path.exists(). -/
def pathExists (fs : FS) (p : Path) : Bool := (lookup fs p).isSome

/-- Whether the path is bound to a directory, modelling pathlib.Path.is_dir()
(false when the path does not exist). -/
def isDirB (fs : FS) (p : Path) : Bool :=
  match lookup fs p with
  | some (.dir ..) => true
  | _ => false

/-- Whether a directory has any entry strictly below it. -/
def hasChild (fs : FS) (p : Path) : Bool :=
  fs.any (fun e => decide (p <+: e.1) && decide (e.1 ≠ p))

/-- unlink models os.unlink as used by pathlib.Path.unlink: removes a
non-directory node, failing with not-found when absent and with
is-a-directory on a directory. -/
def unlink (fs : FS) (p : Path) : Except OSErrorKind FS :=
  match lookup fs p with
  | none => .error .fileNotFound
  | some (.dir ..) => .error .isADirectory
  | some (.file ..) => .ok (eraseKey fs p)

/-- rmdir models os.rmdir as used by pathlib.Path.rmdir: removes an empty
directory, failing with not-found when absent, not-a-directory on a file,
and directory-not-empty on a non-empty directory. -/
def rmdir (fs : FS) (p : Path) : Except OSErrorKind FS :=
  match lookup fs p with
  | none => .error .fileNotFound
  | some (.file ..) => .error .notADirectory
  | some (.dir ..) =>
    if hasChild fs p then .error .directoryNotEmpty else .ok (eraseKey fs p)

/-- rmtree models shutil.rmtree: removes a directory and the whole subtree
below it. -/
def rmtree (fs : FS) (p : Path) : Except OSErrorKind FS :=
  match lookup fs p with
  | none => .error .fileNotFound
  | some (.file ..) => .error .notADirectory
  | some (.dir ..) => .ok (eraseTree fs p)

/-- remove_pathlib_path models _remove_pathlib_path from
charmlibs/pathops/_functions.py: return early when recursive and the path
does not exist; unlink when the path is not a directory; rmdir when not
recursive; otherwise remove the whole tree. -/
def remove_pathlib_path (fs : FS) (p : Path) (recursive : Bool) : Except OSErrorKind FS :=
  if recursive && !(pathExists fs p) then .ok fs
  else if !(isDirB fs p) then unlink fs p
  else if !recursive then rmdir fs p
  else rmtree fs p

/-- Default permission bits for files written without an explicit mode,
from charmlibs/pathops/_constants.py (0o644). -/
def DEFAULT_WRITE_MODE : Nat := 0o644

/-- Default permission bits for created directories, from
charmlibs/pathops/_constants.py (0o755). -/
def DEFAULT_MKDIR_MODE : Nat := 0o755

/-- Owner given to nodes created without an explicit owner (standing for the
invoking process's user, whose actual name the model does not depend on). -/
def defaultUser : String := "root"

/-- Group given to nodes created without an explicit group. -/
def defaultGroup : String := "root"

/-- Modelled from the spec: walks down the components of rest below base,
reusing each existing directory and creating each missing one with the
default directory mode, as pathlib.Path.mkdir(parents=True, exist_ok=True)
does (the LocalPath and ContainerPath implementations are not among the
provided sources; the protocol declaration specifies that created parents
receive the fixed default mode, that an existing directory is not an error,
and that a parent existing as a non-directory file is an error). -/
def mkdirAllFrom : FS → Path → List String → Except OSErrorKind FS
| fs, _, [] => .ok fs
| fs, base, c :: rest =>
  match lookup fs (base ++ [c]) with
  | some (.dir ..) => mkdirAllFrom fs (base ++ [c]) rest
  | some (.file ..) => .error (if rest.isEmpty then .fileExists else .notADirectory)
  | none =>
    mkdirAllFrom (setNode fs (base ++ [c]) (.dir DEFAULT_MKDIR_MODE defaultUser defaultGroup)) (base ++ [c]) rest

/-- mkdir(parents=True, exist_ok=True) on an absolute path. -/
def mkdirParentsExistOk (fs : FS) (p : Path) : Except OSErrorKind FS := mkdirAllFrom fs [] p

/-- Whether the path is the root or an existing directory. -/
def isDirOrRoot (fs : FS) (p : Path) : Bool := p.isEmpty || isDirB fs p

/-- Modelled from the spec: write_bytes of the path protocol
(the LocalPath and ContainerPath implementations are not among the provided
sources; the protocol declaration specifies create-or-overwrite semantics
with the permission bits and, when provided, owner and group set on the
file, not-found when the parent directory does not exist, and
not-a-directory when the parent exists as a non-directory file). Writing
over a directory fails with is-a-directory; an omitted owner or group keeps
the previous value for an existing file. -/
def writeBytes (fs : FS) (p : Path) (data : Bytes) (mode : Nat)
    (user group : Option String) : Except OSErrorKind FS :=
  if p.isEmpty then .error .isADirectory
  else if !(isDirOrRoot fs p.dropLast) then
    (if pathExists fs p.dropLast then .error .notADirectory else .error .fileNotFound)
  else
    match lookup fs p with
    | some (.dir ..) => .error .isADirectory
    | some (.file _ _ fu fg) =>
      .ok (setNode fs p (.file data mode (user.getD fu) (group.getD fg)))
    | none =>
      .ok (setNode fs p (.file data mode (user.getD defaultUser) (group.getD defaultGroup)))

/-- Modelled from the spec: read_bytes of the path protocol
(implementations not among the provided sources; the declaration specifies
the raw contents, not-found when the path does not exist, and reading a
directory is the is-a-directory sub-case of the taxonomy). -/
def readBytes (fs : FS) (p : Path) : Except OSErrorKind Bytes :=
  match lookup fs p with
  | none => .error .fileNotFound
  | some (.dir ..) => .error .isADirectory
  | some (.file c ..) => .ok c

/-- The normalized file-info record produced by _get_fileinfo: permission
bits, owner name, group name and kind. -/
structure FileInfo where
  permissions : Nat
  user : String
  group : String
  isDirKind : Bool
deriving DecidableEq, Repr

/-- getFileinfo models _get_fileinfo from charmlibs/pathops/_functions.py:
a fresh metadata query, failing with not-found when the path is absent. -/
def getFileinfo (fs : FS) (p : Path) : Except OSErrorKind FileInfo :=
  match lookup fs p with
  | none => .error .fileNotFound
  | some (.file _ m u g) => .ok ⟨m, u, g, false⟩
  | some (.dir m u g) => .ok ⟨m, u, g, true⟩

/-- The write branch of ensure_contents: create the parent chain with
mkdir(parents=True, exist_ok=True) and write the bytes with the requested
mode, owner and group, reporting that a change was made. -/
def writePath (fs : FS) (p : Path) (src : Bytes) (mode : Nat)
    (user group : Option String) : Except OSErrorKind (Bool × FS) :=
  match mkdirParentsExistOk fs p.dropLast with
  | .error e => .error e
  | .ok fs1 =>
    match writeBytes fs1 p src mode user group with
    | .error e => .error e
    | .ok fs2 => .ok (true, fs2)

/-- ensure_contents models ensure_contents from
charmlibs/pathops/_functions.py, with the write branch factored out as
writePath above: normalize the source to bytes; query the metadata,
treating not-found as needs-write; when metadata is obtained, compare in
order permission bits, owner and group (each only when a desired value was
given), then the full contents byte for byte, and report no change without
writing when everything matches; otherwise take the write branch. -/
def ensure_contents (fs : FS) (p : Path) (source : Source) (mode : Nat)
    (user group : Option String) : Except OSErrorKind (Bool × FS) :=
  let src := as_bytes source
  let write : FS → Except OSErrorKind (Bool × FS) := fun fs0 =>
    writePath fs0 p src mode user group
  match getFileinfo fs p with
  | .error .fileNotFound => write fs
  | .error e => .error e
  | .ok info =>
    if info.permissions == mode
        && user.all (fun x => info.user == x)
        && group.all (fun x => info.group == x) then
      match readBytes fs p with
      | .error e => .error e
      | .ok current => if current == src then .ok (false, fs) else write fs
    else write fs

/-- Whether the path already has exactly the desired content, permission
bits, and (where a desired value is given) owner and group: the condition
under which ensure_contents reports no change. -/
def alreadyMatches (fs : FS) (p : Path) (src : Bytes) (mode : Nat)
    (user group : Option String) : Bool :=
  match lookup fs p with
  | some (.file c m u g) =>
    m == mode && user.all (fun x => u == x) && group.all (fun x => g == x) && c == src
  | _ => false

/-- The nonempty prefixes of base ++ rest that extend base, shortest first. -/
def prefixesFrom : Path → List String → List Path
| _, [] => []
| base, c :: rest => (base ++ [c]) :: prefixesFrom (base ++ [c]) rest

/-- Whether the path is absent or bound to a directory. -/
def noneOrDir (fs : FS) (p : Path) : Bool :=
  match lookup fs p with
  | some (.file ..) => false
  | _ => true

/-- Whether every proper ancestor of the path is absent or a directory, so
that creating the parent chain can succeed. -/
def ancestorsOk (fs : FS) (p : Path) : Bool :=
  (prefixesFrom [] p.dropLast).all (noneOrDir fs)

/-- Whether the path is absent or bound to a regular file. -/
def fileOrAbsent (fs : FS) (p : Path) : Bool :=
  match lookup fs p with
  | some (.dir ..) => false
  | _ => true

/-- Whether a path name contains a dot. -/
def hasDot : List Char → Bool
| [] => false
| c :: rest => c == ('.') || hasDot rest

/-- Whether a path name ends with a dot. -/
def lastIsDot (cs : List Char) : Bool := cs.getLast? == some ('.')

/-- Drops the characters of a reversed name up to and including the first
dot encountered. -/
def dropThroughDot : List Char → List Char
| [] => []
| c :: rest => if c == ('.') then rest else dropThroughDot rest

/-- The part of a name strictly before its last dot. -/
def beforeLastDot (cs : List Char) : List Char := (dropThroughDot cs.reverse).reverse

/-- Modelled from the spec: with_suffix of the path protocol, acting on the
name (final component) of the path as a list of characters (the LocalPath
and ContainerPath implementations are not among the provided sources; the
protocol declaration specifies that if the name contains no dot, or ends
with a dot, the suffix argument is appended to it, and that otherwise the
last dot and any trailing content is replaced with the suffix argument; an
empty suffix argument thereby removes any existing suffix entirely). -/
def withSuffixName (name suffix : List Char) : List Char :=
  if !(hasDot name) || lastIsDot name then name ++ suffix
  else beforeLastDot name ++ suffix

/-- Example filesystem holding a file at the path a/f whose byte content,
permission bits, owner and group already equal the desired state of the
ensure_contents call made on it below. -/
def exFS1 : FS :=
  [([("a")], .dir 0o755 ("root") ("root")),
   ([("a"), ("f")], .file [7] 0o644 ("root") ("root"))]

/-- Example filesystem holding a directory at the path d. -/
def exFS3 : FS := [([("d")], .dir 0o755 ("root") ("root"))]

/-- Example filesystem holding a regular file at the path f. -/
def exFS10 : FS := [([("f")], .file [1] 0o644 ("root") ("root"))]

/-- Example protocol error of the generic-file-error category whose message
matches none of the remove adapter's three matchers. -/
def exError6 : PebbleError := .pathError ("generic-file-error") ("open /x: file exists")

/-- Example protocol not-found error, as reported by a remove call on an
absent path. -/
def exErrorNF : PebbleError := .pathError ("not-found") ("remove /x: no such file or directory")

/-- Example protocol error reported by a non-recursive remove call on a
non-empty directory. -/
def exErrorDNE : PebbleError := .pathError ("generic-file-error") ("rmdir /d: directory not empty")

theorem lookup_eraseKey_ne : ∀ (fs : FS) (p q : Path), q ≠ p →
    lookup (eraseKey fs p) q = lookup fs q := by
  intro fs p q h
  induction fs with
  | nil => rfl
  | cons e rest ih =>
    rcases e with ⟨k, n⟩
    have h3 : p ≠ q := fun hh => h hh.symm
    by_cases hk : k = p
    · have h2 : k ≠ q := by rw [hk]; exact fun hh => h hh.symm
      simp [eraseKey, lookup, hk, h2, h3, ih]
    · by_cases hq : k = q <;> simp [eraseKey, lookup, hk, hq, h, ih]

theorem lookup_setNode_self (fs : FS) (p : Path) (n : Node) :
    lookup (setNode fs p n) p = some n := by
  simp [setNode, lookup]

theorem lookup_setNode_ne (fs : FS) (p q : Path) (n : Node) (h : q ≠ p) :
    lookup (setNode fs p n) q = lookup fs q := by
  have h2 : p ≠ q := fun hh => h hh.symm
  simp only [setNode, lookup, if_neg h2]
  exact lookup_eraseKey_ne fs p q h

theorem noneOrDir_eq_of_lookup_eq {fs fs' : FS} {q : Path}
    (h : lookup fs' q = lookup fs q) : noneOrDir fs' q = noneOrDir fs q := by
  simp [noneOrDir, h]

theorem length_lt_of_mem_prefixesFrom : ∀ (rest : List String) (base q : Path),
    q ∈ prefixesFrom base rest → base.length < q.length := by
  intro rest
  induction rest with
  | nil => intro base q hq; simp [prefixesFrom] at hq
  | cons c rest ih =>
    intro base q hq
    simp only [prefixesFrom, List.mem_cons] at hq
    rcases hq with rfl | hq
    · simp
    · have := ih (base ++ [c]) q hq
      simp only [List.length_append, List.length_cons, List.length_nil] at this
      omega

theorem length_le_of_mem_prefixesFrom : ∀ (rest : List String) (base q : Path),
    q ∈ prefixesFrom base rest → q.length ≤ base.length + rest.length := by
  intro rest
  induction rest with
  | nil => intro base q hq; simp [prefixesFrom] at hq
  | cons c rest ih =>
    intro base q hq
    simp only [prefixesFrom, List.mem_cons] at hq
    rcases hq with rfl | hq
    · simp only [List.length_append, List.length_cons, List.length_nil]
      omega
    · have := ih (base ++ [c]) q hq
      simp only [List.length_append, List.length_cons, List.length_nil] at this ⊢
      omega

theorem mkdirAllFrom_ok : ∀ (rest : List String) (fs : FS) (base : Path),
    (prefixesFrom base rest).all (noneOrDir fs) = true →
    isDirOrRoot fs base = true →
    ∃ fs', mkdirAllFrom fs base rest = .ok fs' ∧
      (∀ q, q ∉ prefixesFrom base rest → lookup fs' q = lookup fs q) ∧
      isDirOrRoot fs' (base ++ rest) = true := by
  intro rest
  induction rest with
  | nil =>
    intro fs base hall hbase
    exact ⟨fs, rfl, fun q _ => rfl, by simpa using hbase⟩
  | cons c rest ih =>
    intro fs base hall hbase
    simp only [prefixesFrom, List.all_cons, Bool.and_eq_true] at hall
    obtain ⟨h1, h2⟩ := hall
    cases hl : lookup fs (base ++ [c]) with
    | some n =>
      cases n with
      | file content m u g => simp [noneOrDir, hl] at h1
      | dir m u g =>
        have hbase' : isDirOrRoot fs (base ++ [c]) = true := by
          simp [isDirOrRoot, isDirB, hl]
        obtain ⟨fs', heq, hpres, hdir⟩ := ih fs (base ++ [c]) h2 hbase'
        refine ⟨fs', ?_, ?_, ?_⟩
        · simp only [mkdirAllFrom, hl]
          exact heq
        · intro q hq
          simp only [prefixesFrom, List.mem_cons, not_or] at hq
          exact hpres q hq.2
        · rw [List.append_cons]
          exact hdir
    | none =>
      set fs0 := setNode fs (base ++ [c]) (.dir DEFAULT_MKDIR_MODE defaultUser defaultGroup) with hfs0
      have hpres0 : ∀ q, q ≠ base ++ [c] → lookup fs0 q = lookup fs q :=
        fun q hq => lookup_setNode_ne fs (base ++ [c]) q _ hq
      have hall0 : (prefixesFrom (base ++ [c]) rest).all (noneOrDir fs0) = true := by
        rw [List.all_eq_true] at h2 ⊢
        intro q hq
        have hne : q ≠ base ++ [c] := by
          intro hcontra
          have hlen := length_lt_of_mem_prefixesFrom rest (base ++ [c]) q hq
          rw [hcontra] at hlen
          omega
        rw [noneOrDir_eq_of_lookup_eq (hpres0 q hne)]
        exact h2 q hq
      have hbase0 : isDirOrRoot fs0 (base ++ [c]) = true := by
        simp [isDirOrRoot, isDirB, hfs0, lookup_setNode_self]
      obtain ⟨fs', heq, hpres, hdir⟩ := ih fs0 (base ++ [c]) hall0 hbase0
      refine ⟨fs', ?_, ?_, ?_⟩
      · simp only [mkdirAllFrom, hl]
        exact heq
      · intro q hq
        simp only [prefixesFrom, List.mem_cons, not_or] at hq
        rw [hpres q hq.2, hpres0 q hq.1]
      · rw [List.append_cons]
        exact hdir

theorem opt_all_getD (o : Option String) (d : String) :
    o.all (fun x => (o.getD d) == x) = true := by
  cases o <;> simp

theorem writePath_ok (fs : FS) (p : Path) (src : Bytes) (mode : Nat)
    (user group : Option String)
    (hp : p ≠ []) (hanc : ancestorsOk fs p = true) (hfa : fileOrAbsent fs p = true) :
    ∃ fs' u' g', writePath fs p src mode user group = .ok (true, fs') ∧
      lookup fs' p = some (.file src mode u' g') ∧
      user.all (fun x => u' == x) = true ∧
      group.all (fun x => g' == x) = true := by
  obtain ⟨fs1, heq, hpres, hdir⟩ :=
    mkdirAllFrom_ok p.dropLast fs [] hanc (by simp [isDirOrRoot])
  have hnotmem : p ∉ prefixesFrom [] p.dropLast := by
    intro hmem
    have hle := length_le_of_mem_prefixesFrom p.dropLast [] p hmem
    have hlen : p.dropLast.length = p.length - 1 := by
      simp [List.length_dropLast]
    have hpos : 0 < p.length := List.length_pos.mpr hp
    simp only [List.length_nil] at hle
    omega
  have hlp : lookup fs1 p = lookup fs p := hpres p hnotmem
  have hpe : p.isEmpty = false := by
    cases p with
    | nil => exact absurd rfl hp
    | cons a l => rfl
  have hdir1 : isDirOrRoot fs1 p.dropLast = true := by
    simpa using hdir
  cases hl : lookup fs p with
  | none =>
    refine ⟨setNode fs1 p (.file src mode (user.getD defaultUser) (group.getD defaultGroup)),
      user.getD defaultUser, group.getD defaultGroup, ?_, ?_, ?_, ?_⟩
    · rw [writePath, mkdirParentsExistOk, heq]
      rw [hl] at hlp
      simp [writeBytes, hpe, hdir1, hlp]
    · exact lookup_setNode_self fs1 p _
    · exact opt_all_getD user defaultUser
    · exact opt_all_getD group defaultGroup
  | some n =>
    cases n with
    | dir m u g => simp [fileOrAbsent, hl] at hfa
    | file c m u g =>
      refine ⟨setNode fs1 p (.file src mode (user.getD u) (group.getD g)),
        user.getD u, group.getD g, ?_, ?_, ?_, ?_⟩
      · rw [writePath, mkdirParentsExistOk, heq]
        rw [hl] at hlp
        simp [writeBytes, hpe, hdir1, hlp]
      · exact lookup_setNode_self fs1 p _
      · exact opt_all_getD user u
      · exact opt_all_getD group g

theorem ensure_contents_of_match (fs : FS) (p : Path) (source : Source) (mode : Nat)
    (user group : Option String) (u' g' : String)
    (h : lookup fs p = some (.file (as_bytes source) mode u' g'))
    (hu : user.all (fun x => u' == x) = true)
    (hg : group.all (fun x => g' == x) = true) :
    ensure_contents fs p source mode user group = .ok (false, fs) := by
  simp [ensure_contents, getFileinfo, h, readBytes, hu, hg]

theorem ensure_contents_eq_writePath_of_file_mismatch (fs : FS) (p : Path)
    (source : Source) (mode : Nat) (user group : Option String)
    (c : Bytes) (m : Nat) (u g : String)
    (hl : lookup fs p = some (.file c m u g))
    (hmm : (m == mode && user.all (fun x => u == x) && group.all (fun x => g == x)
        && c == as_bytes source) = false) :
    ensure_contents fs p source mode user group =
      writePath fs p (as_bytes source) mode user group := by
  simp only [ensure_contents, getFileinfo, hl, readBytes]
  by_cases hmeta : (m == mode && user.all (fun x => u == x)
      && group.all (fun x => g == x)) = true
  · have hc : (c == as_bytes source) = false := by
      rcases Bool.eq_false_or_eq_true (c == as_bytes source) with hcc | hcc
      · rw [hmeta, hcc] at hmm
        simp at hmm
      · exact hcc
    simp [hmeta, hc]
  · simp only [Bool.not_eq_true] at hmeta
    simp [hmeta]

/-- C1 (amended): for every path P whose proper ancestors are each absent or
a directory and which is itself absent or a regular file, calling
ensure_contents(P, C, mode=M, user=U, group=G) twice in succession with
identical arguments has the first call return True exactly when P does not
already match the desired content, mode, owner and group (and False when it
already matches), has the second call return False, and after both calls
reading P returns exactly the normalized bytes of C. -/
theorem ensure_contents_twice_idempotent (fs : FS) (p : Path) (source : Source)
    (mode : Nat) (user group : Option String)
    (hp : p ≠ []) (hanc : ancestorsOk fs p = true) (hfa : fileOrAbsent fs p = true) :
    ∃ fs₁,
      ensure_contents fs p source mode user group =
        .ok (!(alreadyMatches fs p (as_bytes source) mode user group), fs₁) ∧
      ensure_contents fs₁ p source mode user group = .ok (false, fs₁) ∧
      readBytes fs₁ p = .ok (as_bytes source) := by
  obtain ⟨fs', u', g', hw, hl', hu, hg⟩ :=
    writePath_ok fs p (as_bytes source) mode user group hp hanc hfa
  cases hl : lookup fs p with
  | none =>
    refine ⟨fs', ?_, ?_, ?_⟩
    · have h1 : ensure_contents fs p source mode user group =
          writePath fs p (as_bytes source) mode user group := by
        simp [ensure_contents, getFileinfo, hl]
      rw [h1, hw]
      simp [alreadyMatches, hl]
    · exact ensure_contents_of_match fs' p source mode user group u' g' hl' hu hg
    · simp [readBytes, hl']
  | some n =>
    cases n with
    | dir m u g => simp [fileOrAbsent, hl] at hfa
    | file c m u g =>
      by_cases ham : (m == mode && user.all (fun x => u == x)
          && group.all (fun x => g == x) && (c == as_bytes source)) = true
      · -- the desired state already holds: both calls report no change
        have hmeta : (m == mode && user.all (fun x => u == x)
            && group.all (fun x => g == x)) = true := by
          rcases Bool.and_eq_true_iff.mp ham with ⟨h1, _⟩
          exact h1
        have hc : c = as_bytes source := by
          rcases Bool.and_eq_true_iff.mp ham with ⟨_, h2⟩
          exact eq_of_beq h2
        have hmatch : alreadyMatches fs p (as_bytes source) mode user group = true := by
          simp only [alreadyMatches, hl]
          exact ham
        have hfirst : ensure_contents fs p source mode user group = .ok (false, fs) := by
          simp only [ensure_contents, getFileinfo, hl, readBytes, hmeta]
          simp [hc]
        refine ⟨fs, ?_, hfirst, ?_⟩
        · rw [hfirst, hmatch]
          rfl
        · rw [readBytes, hl, hc]
      · -- some part of the desired state differs: the first call writes
        have hmatch : alreadyMatches fs p (as_bytes source) mode user group = false := by
          simp only [alreadyMatches, hl]
          simp only [Bool.not_eq_true] at ham
          exact ham
        have h1 := ensure_contents_eq_writePath_of_file_mismatch fs p source mode user group
          c m u g hl (by simpa using ham)
        refine ⟨fs', ?_, ?_, ?_⟩
        · rw [h1, hw, hmatch]
          rfl
        · exact ensure_contents_of_match fs' p source mode user group u' g' hl' hu hg
        · simp [readBytes, hl']

theorem opt_all_of_forall (o : Option String) (v : String)
    (h : ∀ x, o = some x → v = x) : o.all (fun x => v == x) = true := by
  cases o with
  | none => rfl
  | some a => simp [h a rfl]

theorem matchesCond_iff (c src : Bytes) (m mode : Nat) (u g : String)
    (user group : Option String) :
    (m == mode && user.all (fun x => u == x) && group.all (fun x => g == x)
      && (c == src)) = true ↔
    (m = mode ∧ (∀ x, user = some x → u = x) ∧ (∀ x, group = some x → g = x) ∧
      c = src) := by
  cases user <;> cases group <;>
    simp [Bool.and_eq_true, beq_iff_eq, and_assoc]

/-- C3: for every existing regular file P whose proper ancestors are each
directories (or absent), ensure_contents(P, C, mode=M, user=U, group=G)
returns False — leaving the filesystem exactly unchanged, so performing no
write and no directory creation — if and only if P's permission bits equal
M exactly, P's owner equals U whenever U is given (and is not compared when
U is None), P's group equals G whenever G is given, and P's current byte
content equals the normalized bytes of C byte for byte; otherwise it writes
and returns True, leaving P a regular file with the desired content and
mode. -/
theorem ensure_contents_existing_file_iff (fs : FS) (p : Path) (source : Source)
    (mode : Nat) (user group : Option String) (c : Bytes) (m : Nat) (u g : String)
    (hp : p ≠ []) (hanc : ancestorsOk fs p = true)
    (hf : lookup fs p = some (.file c m u g)) :
    (ensure_contents fs p source mode user group = .ok (false, fs) ↔
      (m = mode ∧ (∀ x, user = some x → u = x) ∧ (∀ x, group = some x → g = x) ∧
        c = as_bytes source)) ∧
    (¬(m = mode ∧ (∀ x, user = some x → u = x) ∧ (∀ x, group = some x → g = x) ∧
        c = as_bytes source) →
      ∃ fs' u' g', ensure_contents fs p source mode user group = .ok (true, fs') ∧
        lookup fs' p = some (.file (as_bytes source) mode u' g')) := by
  have hfa : fileOrAbsent fs p = true := by simp [fileOrAbsent, hf]
  have hbool := matchesCond_iff c (as_bytes source) m mode u g user group
  constructor
  · constructor
    · intro hres
      by_cases hb : (m == mode && user.all (fun x => u == x)
          && group.all (fun x => g == x) && (c == as_bytes source)) = true
      · exact hbool.mp hb
      · exfalso
        obtain ⟨fs', u', g', hw, _, _, _⟩ :=
          writePath_ok fs p (as_bytes source) mode user group hp hanc hfa
        rw [ensure_contents_eq_writePath_of_file_mismatch fs p source mode user group
          c m u g hf (by simpa using hb), hw] at hres
        simp at hres
    · intro hcond
      obtain ⟨hm, hus, hgs, hc⟩ := hcond
      subst hm
      subst hc
      exact ensure_contents_of_match fs p source m user group u g hf
        (opt_all_of_forall user u hus) (opt_all_of_forall group g hgs)
  · intro hcond
    have hb : (m == mode && user.all (fun x => u == x)
        && group.all (fun x => g == x) && (c == as_bytes source)) = false :=
      Bool.eq_false_iff.mpr (fun hh => hcond (hbool.mp hh))
    obtain ⟨fs', u', g', hw, hl', hu, hg⟩ :=
      writePath_ok fs p (as_bytes source) mode user group hp hanc hfa
    refine ⟨fs', u', g', ?_, hl'⟩
    rw [ensure_contents_eq_writePath_of_file_mismatch fs p source mode user group
      c m u g hf hb, hw]

/-- C4: for every path P that does not exist (and whose proper ancestors are
each absent or a directory, so that the write itself can succeed), the
not-found failure of the initial metadata query of ensure_contents is not
propagated: the write is performed, the call returns True, and P afterwards
holds exactly the normalized bytes of the source. -/
theorem ensure_contents_absent_writes (fs : FS) (p : Path) (source : Source)
    (mode : Nat) (user group : Option String)
    (hp : p ≠ []) (habs : lookup fs p = none) (hanc : ancestorsOk fs p = true) :
    ∃ fs', ensure_contents fs p source mode user group = .ok (true, fs') ∧
      readBytes fs' p = .ok (as_bytes source) := by
  have hfa : fileOrAbsent fs p = true := by simp [fileOrAbsent, habs]
  obtain ⟨fs', u', g', hw, hl', hu, hg⟩ :=
    writePath_ok fs p (as_bytes source) mode user group hp hanc hfa
  refine ⟨fs', ?_, ?_⟩
  · have h1 : ensure_contents fs p source mode user group =
        writePath fs p (as_bytes source) mode user group := by
      simp [ensure_contents, getFileinfo, habs]
    rw [h1, hw]
  · simp [readBytes, hl']

/-- C1 counterexample: on a filesystem where the target already holds
exactly the desired content, mode, owner and group, the first of two
identical ensure_contents calls returns False, not True as claimed. -/
theorem ensure_contents_first_call_not_always_changed :
    ensure_contents exFS1 [("a"), ("f")] (.bytes [7]) DEFAULT_WRITE_MODE none none =
      .ok (false, exFS1) := by
  rfl

/-- C3 counterexample: on an existing path that is a directory whose
permission bits differ from the requested mode, ensure_contents raises
is-a-directory rather than writing and returning True, so the claim's
universal statement over every existing path fails. -/
theorem ensure_contents_existing_dir_raises :
    ensure_contents exFS3 [("d")] (.bytes [1]) DEFAULT_WRITE_MODE none none =
      .error .isADirectory := by
  rfl

/-- C2 counterexample: handed the protocol's structured not-found error with
recursive set to true, the remote remove adapter does not suppress it — it
raises the translated not-found error, so the call does not succeed. -/
theorem remove_container_path_notfound_not_suppressed :
    remove_container_path (some exErrorNF) true =
      .osError .fileNotFound (some exErrorNF) ∧
    remove_container_path (some exErrorNF) true ≠ .ok := by
  exact ⟨rfl, by decide⟩

/-- C2 (amended): for every path P that does not exist, the local backend's
remove_path(P, recursive=True) succeeds without raising; the remote adapter
passes a successful protocol call through unchanged, but performs no
suppression of its own: if the protocol reports a structured not-found
error, the adapter raises the translated not-found error even when
recursive is true, so remote idempotence relies on the protocol call itself
succeeding for an absent path. -/
theorem remove_absent_path_idempotent (fs : FS) (p : Path) (msg : String)
    (hl : lookup fs p = none) :
    remove_pathlib_path fs p true = .ok fs ∧
    remove_container_path none true = .ok ∧
    remove_container_path (some (.pathError ("not-found") msg)) true =
      .osError .fileNotFound (some (.pathError ("not-found") msg)) := by
  refine ⟨?_, rfl, rfl⟩
  simp [remove_pathlib_path, pathExists, hl]

/-- C5: non-recursive remove_path on the local backend fails with not-found
when the path does not exist, unlinks a regular file, succeeds on an empty
directory, and fails with directory-not-empty on a non-empty directory; the
remote adapter maps the protocol's directory-not-empty and not-found
errors from a non-recursive remove to the corresponding taxonomy kinds. -/
theorem remove_path_non_recursive_cases (fs : FS) (p : Path) :
    remove_pathlib_path fs p false =
      (match lookup fs p with
       | none => .error .fileNotFound
       | some (.file ..) => .ok (eraseKey fs p)
       | some (.dir ..) =>
         if hasChild fs p then .error .directoryNotEmpty else .ok (eraseKey fs p)) ∧
    remove_container_path (some exErrorDNE) false =
      .osError .directoryNotEmpty (some exErrorDNE) ∧
    remove_container_path (some exErrorNF) false =
      .osError .fileNotFound (some exErrorNF) := by
  refine ⟨?_, by decide, by decide⟩
  cases hl : lookup fs p with
  | none => simp [remove_pathlib_path, pathExists, isDirB, unlink, hl]
  | some n =>
    cases n with
    | file c m u g => simp [remove_pathlib_path, pathExists, isDirB, unlink, hl]
    | dir m u g => simp [remove_pathlib_path, pathExists, isDirB, rmdir, hl]

/-- C6 counterexample: a protocol PathError of the generic-file-error
category whose message matches none of the remove adapter's three matchers
is re-raised raw: the backend-native protocol error itself reaches the
caller untranslated. -/
theorem remove_container_path_raw_escape :
    remove_container_path (some exError6) false = .raw exError6 ∧
    RemoveResult.isTranslated (remove_container_path (some exError6) false) = false := by
  exact ⟨rfl, rfl⟩

/-- C6 (amended): a remote remove failure matching the directory-not-empty,
not-found or permission matcher crosses the boundary translated to the
corresponding shared semantic kind with the original protocol error
attached as context; any other protocol error — a PathError of an unmatched
kind and message, or an error that is not a PathError at all — is raised to
the caller raw and untranslated. -/
theorem remove_container_path_taxonomy (e : PebbleError) (r : Bool) :
    remove_container_path none r = .ok ∧
    (matches_directory_not_empty e = true →
      remove_container_path (some e) r = .osError .directoryNotEmpty (some e)) ∧
    (matches_directory_not_empty e = false → matches_file_not_found e = true →
      e.isPathError = true →
      remove_container_path (some e) r = .osError .fileNotFound (some e)) ∧
    (matches_directory_not_empty e = false → matches_file_not_found e = false →
      matches_permission e = true →
      remove_container_path (some e) r = .osError .permissionDenied (some e)) ∧
    (e.isPathError = false ∨ (matches_directory_not_empty e = false ∧
        matches_file_not_found e = false ∧ matches_permission e = false) →
      remove_container_path (some e) r = .raw e) := by
  refine ⟨rfl, ?_, ?_, ?_, ?_⟩
  · intro h1
    have hip : e.isPathError = true := by
      cases e with
      | pathError k m => rfl
      | apiError c m => simp [matches_directory_not_empty] at h1
    simp [remove_container_path, hip, h1]
  · intro h1 h2 hip
    simp [remove_container_path, hip, h1, h2]
  · intro h1 h2 h3
    have hip : e.isPathError = true := by
      cases e with
      | pathError k m => rfl
      | apiError c m => simp [matches_permission] at h3
    simp [remove_container_path, hip, h1, h2, h3]
  · intro h
    rcases h with hip | ⟨h1, h2, h3⟩
    · simp [remove_container_path, hip]
    · cases hip2 : e.isPathError
      · simp [remove_container_path, hip2]
      · simp [remove_container_path, hip2, h1, h2, h3]

/-- C10: for every existing local path bound to a regular file, recursive
remove_path succeeds and unlinks exactly that binding — the non-directory
case is handled by unlink, not by tree removal. -/
theorem remove_recursive_unlinks_file (fs : FS) (p : Path) (c : Bytes) (m : Nat)
    (u g : String) (hf : lookup fs p = some (.file c m u g)) :
    remove_pathlib_path fs p true = .ok (eraseKey fs p) ∧
    remove_pathlib_path fs p true = unlink fs p := by
  constructor <;> simp [remove_pathlib_path, pathExists, isDirB, unlink, hf]

theorem if_some_iff (b : Bool) (k : OSErrorKind) :
    ((if b then some k else none) = some k) ↔ b = true := by
  cases b <;> simp

/-- C7: each heuristic mapper for the generic-file-error category matches by
message substring — file exists raises the already-exists kind, can only
read a regular file raises the is-a-directory kind, cannot look up user and
group raises the lookup-failed kind, and not a directory is recognized as
the not-a-directory kind — and none of them matches an error of another
category or with another message. -/
theorem error_matchers_by_substring (kind msg : String) (code : Nat) :
    (raise_if_matches_file_exists (.pathError kind msg) = some .fileExists ↔
      kind = ("generic-file-error") ∧ containsSub ("file exists") msg = true) ∧
    (raise_if_matches_file_exists (.apiError code msg) = none) ∧
    (raise_if_matches_is_a_directory (.pathError kind msg) = some .isADirectory ↔
      kind = ("generic-file-error") ∧
        containsSub ("can only read a regular file") msg = true) ∧
    (raise_if_matches_is_a_directory (.apiError code msg) = none) ∧
    (raise_if_matches_lookup (.pathError kind msg) = some .lookupFailed ↔
      kind = ("generic-file-error") ∧
        containsSub ("cannot look up user and group") msg = true) ∧
    (raise_if_matches_lookup (.apiError code msg) = none) ∧
    (matches_not_a_directory (.pathError kind msg) = true ↔
      kind = ("generic-file-error") ∧ containsSub ("not a directory") msg = true) ∧
    (matches_not_a_directory (.apiError code msg) = false) := by
  refine ⟨?_, rfl, ?_, rfl, ?_, rfl, ?_, rfl⟩
  · rw [raise_if_matches_file_exists, if_some_iff]
    simp [matches_file_exists, Bool.and_eq_true, beq_iff_eq]
  · rw [raise_if_matches_is_a_directory, if_some_iff]
    simp [matches_is_a_directory, Bool.and_eq_true, beq_iff_eq]
  · rw [raise_if_matches_lookup, if_some_iff]
    simp [matches_lookup_failed, Bool.and_eq_true, beq_iff_eq]
  · simp [matches_not_a_directory, Bool.and_eq_true, beq_iff_eq]

/-- C9: ensure_contents normalizes its source before any comparison or
write — a bytes source is used unchanged, a str source contributes its
UTF-8 encoding, and a source with a read() method behaves exactly as if the
value returned by read() had been passed directly. -/
theorem as_bytes_normalization (b : Bytes) (s : String) (r : Source) (fs : FS)
    (p : Path) (mode : Nat) (user group : Option String) :
    as_bytes (.bytes b) = b ∧
    as_bytes (.str s) = utf8Encode s ∧
    as_bytes (.reader r) = as_bytes r ∧
    ensure_contents fs p (.reader r) mode user group =
      ensure_contents fs p r mode user group := by
  exact ⟨rfl, rfl, rfl, rfl⟩

theorem hasDot_append (xs ys : List Char) :
    hasDot (xs ++ ys) = (hasDot xs || hasDot ys) := by
  induction xs with
  | nil => rfl
  | cons c rest ih => simp [hasDot, ih, Bool.or_assoc]

theorem getLast?_append_bak (xs : List Char) :
    (xs ++ [('.'), ('b'), ('a'), ('k')]).getLast? = some ('k') := by
  rw [show ([('.'), ('b'), ('a'), ('k')] : List Char) =
    ('.') :: [('b'), ('a'), ('k')] from rfl]
  rw [List.getLast?_append_cons]
  rfl

theorem outer_cond_false (xs : List Char) :
    (!(hasDot (xs ++ [('.'), ('b'), ('a'), ('k')]))
      || lastIsDot (xs ++ [('.'), ('b'), ('a'), ('k')])) = false := by
  rw [hasDot_append, lastIsDot, getLast?_append_bak]
  rw [show hasDot [('.'), ('b'), ('a'), ('k')] = true from rfl, Bool.or_true]
  rfl

theorem dropThroughDot_cons_ne (c : Char) (l : List Char) (h : (c == ('.')) = false) :
    dropThroughDot (c :: l) = dropThroughDot l := by
  simp [dropThroughDot, h]

theorem dropThroughDot_cons_dot (l : List Char) :
    dropThroughDot (('.') :: l) = l := by
  simp [dropThroughDot]

theorem beforeLastDot_append_bak (xs : List Char) :
    beforeLastDot (xs ++ [('.'), ('b'), ('a'), ('k')]) = xs := by
  rw [beforeLastDot, List.reverse_append]
  rw [show ([('.'), ('b'), ('a'), ('k')] : List Char).reverse =
    [('k'), ('a'), ('b'), ('.')] from rfl]
  simp only [List.cons_append, List.nil_append]
  rw [dropThroughDot_cons_ne ('k') _ (by decide),
    dropThroughDot_cons_ne ('a') _ (by decide),
    dropThroughDot_cons_ne ('b') _ (by decide),
    dropThroughDot_cons_dot, List.reverse_reverse]

/-- C8: for every path name, applying with_suffix with the argument .bak
and then with the empty-string argument yields the name with its original
last suffix removed entirely — exactly the result of with_suffix with the
empty-string argument alone — regardless of the starting suffix (none, one
or several). -/
theorem with_suffix_roundtrip (name : List Char) :
    withSuffixName (withSuffixName name [('.'), ('b'), ('a'), ('k')]) [] =
      withSuffixName name [] := by
  by_cases h : (!(hasDot name) || lastIsDot name) = true
  · have hin : withSuffixName name [('.'), ('b'), ('a'), ('k')] =
        name ++ [('.'), ('b'), ('a'), ('k')] := by
      rw [withSuffixName, if_pos h]
    have hout : withSuffixName (name ++ [('.'), ('b'), ('a'), ('k')]) [] =
        beforeLastDot (name ++ [('.'), ('b'), ('a'), ('k')]) ++ [] := by
      rw [withSuffixName, if_neg (by rw [outer_cond_false]; exact Bool.false_ne_true)]
    have hrhs : withSuffixName name [] = name ++ [] := by
      rw [withSuffixName, if_pos h]
    rw [hin, hout, beforeLastDot_append_bak, hrhs]
  · have hin : withSuffixName name [('.'), ('b'), ('a'), ('k')] =
        beforeLastDot name ++ [('.'), ('b'), ('a'), ('k')] := by
      rw [withSuffixName, if_neg h]
    have hout : withSuffixName (beforeLastDot name ++ [('.'), ('b'), ('a'), ('k')]) [] =
        beforeLastDot (beforeLastDot name ++ [('.'), ('b'), ('a'), ('k')]) ++ [] := by
      rw [withSuffixName, if_neg (by rw [outer_cond_false]; exact Bool.false_ne_true)]
    have hrhs : withSuffixName name [] = beforeLastDot name ++ [] := by
      rw [withSuffixName, if_neg h]
    rw [hin, hout, beforeLastDot_append_bak, hrhs]

theorem ensure_contents_twice_idempotent_witness :
    ∃ fs₁,
      ensure_contents ([] : FS) [("etc"), ("app")] (.bytes [1, 2]) 420
          (some ("root")) none =
        .ok (!(alreadyMatches ([] : FS) [("etc"), ("app")]
          (as_bytes (.bytes [1, 2])) 420 (some ("root")) none), fs₁) ∧
      ensure_contents fs₁ [("etc"), ("app")] (.bytes [1, 2]) 420
          (some ("root")) none = .ok (false, fs₁) ∧
      readBytes fs₁ [("etc"), ("app")] = .ok (as_bytes (.bytes [1, 2])) :=
  ensure_contents_twice_idempotent [] [("etc"), ("app")] (.bytes [1, 2]) 420
    (some ("root")) none (by decide) (by decide) (by decide)

theorem remove_absent_path_idempotent_witness :
    remove_pathlib_path ([] : FS) [("x")] true = .ok ([] : FS) ∧
    remove_container_path none true = .ok ∧
    remove_container_path (some (.pathError ("not-found") ("nf"))) true =
      .osError .fileNotFound (some (.pathError ("not-found") ("nf"))) :=
  remove_absent_path_idempotent [] [("x")] ("nf") (by decide)

theorem ensure_contents_existing_file_iff_witness :
    (ensure_contents [([("f")], .file [9] 256 ("alice") ("staff"))] [("f")]
        (.bytes [9]) 256 none none =
      .ok (false, [([("f")], .file [9] 256 ("alice") ("staff"))]) ↔
      (256 = 256 ∧ (∀ x, (none : Option String) = some x → ("alice") = x) ∧
        (∀ x, (none : Option String) = some x → ("staff") = x) ∧
        [9] = as_bytes (.bytes [9]))) ∧
    (¬(256 = 256 ∧ (∀ x, (none : Option String) = some x → ("alice") = x) ∧
        (∀ x, (none : Option String) = some x → ("staff") = x) ∧
        [9] = as_bytes (.bytes [9])) →
      ∃ fs' u' g',
        ensure_contents [([("f")], .file [9] 256 ("alice") ("staff"))] [("f")]
          (.bytes [9]) 256 none none = .ok (true, fs') ∧
        lookup fs' [("f")] = some (.file (as_bytes (.bytes [9])) 256 u' g')) :=
  ensure_contents_existing_file_iff [([("f")], .file [9] 256 ("alice") ("staff"))]
    [("f")] (.bytes [9]) 256 none none [9] 256 ("alice") ("staff")
    (by decide) (by decide) (by decide)

theorem ensure_contents_absent_writes_witness :
    ∃ fs', ensure_contents ([] : FS) [("a"), ("b")] (.str ("hi")) 420 none none =
        .ok (true, fs') ∧
      readBytes fs' [("a"), ("b")] = .ok (as_bytes (.str ("hi"))) :=
  ensure_contents_absent_writes [] [("a"), ("b")] (.str ("hi")) 420 none none
    (by decide) (by decide) (by decide)

theorem remove_container_path_taxonomy_witness :
    remove_container_path (some exErrorDNE) false =
      .osError .directoryNotEmpty (some exErrorDNE) :=
  (remove_container_path_taxonomy exErrorDNE false).2.1 (by decide)

theorem remove_recursive_unlinks_file_witness :
    remove_pathlib_path exFS10 [("f")] true = .ok (eraseKey exFS10 [("f")]) ∧
    remove_pathlib_path exFS10 [("f")] true = unlink exFS10 [("f")] :=
  remove_recursive_unlinks_file exFS10 [("f")] [1] 420 ("root") ("root") (by decide)

end PathOps
